import Mathlib

/-!
Verification of the hybrid retrieval-fusion and conversation-orchestration
core of the Aerothon document question-answering backend.

The Lean definitions below are a shallow embedding of the Python source:

* `server/models/custom_retrievers.py` — `EnsembleRetriever` and its
  Reciprocal Rank Fusion (`_get_relevant_documents`), embedded as
  `gatherResults`, `rrfScore`, `uniqueDocs` and `fuse`;
* `server/models/rag_chat.py` / `rag_chat_dual.py` — the per-turn
  orchestration (`rag_chat`, `rag_chat_dual`), embedded as `ragChat` and
  `ragChatDual` over an abstract backend environment `ChatEnv`, with an
  explicit event trace and an explicit append-only history store;
* `server/routes/main.py` — role/mode authorization and the conversation
  routes (`_allowed_conversation_modes_for`, `_neo_session_key`,
  `_get_conversation_or_404`, `conversation_send`, `conversation_history`).

Python floats are modelled by exact rationals (`ℚ`); fallible backend calls
are modelled by `Except String`.
-/

namespace Aerothon

/-! ### Data model -/

/-- Chunk metadata: the `Document.metadata` dict, as an association list. -/
abbrev Metadata := List (String × String)

/-- Embeds `metadata.get(k, dflt)`. -/
def metaGet (m : Metadata) (k dflt : String) : String :=
  match m.find? (fun p => p.1 == k) with
  | some p => p.2
  | none => dflt

/-- A retrieval chunk: langchain `Document` (`page_content` + `metadata`). -/
structure Document where
  page_content : String
  metadata : Metadata
deriving DecidableEq

/-! ### EnsembleRetriever — Reciprocal Rank Fusion
(`server/models/custom_retrievers.py`, `_get_relevant_documents`) -/

/-- Embeds `self.weights[i] if i < len(self.weights) else 1.0`. -/
def weightAt (weights : List ℚ) (i : Nat) : ℚ :=
  if h : i < weights.length then weights.get ⟨i, h⟩ else 1

/-- RRF contribution of one ranked list to the score of content `key`,
starting at rank `r`: every occurrence of `key` at rank `rank` adds
`w * (1 / (rank + 60))` (the Python loop `for rank, doc in enumerate(docs)`
with `rrf_score[doc_key] += score`). -/
def listScoreFrom (w : ℚ) (key : String) : List Document → Nat → ℚ
  | [], _ => 0
  | d :: ds, r =>
    (if d.page_content = key then w * (1 / ((r : ℚ) + 60)) else 0) +
      listScoreFrom w key ds (r + 1)

/-- RRF contribution of one ranked list (ranks counted from 0). -/
def listScore (docs : List Document) (w : ℚ) (key : String) : ℚ :=
  listScoreFrom w key docs 0

/-- Accumulated RRF score over the tail of `all_results` starting at list
index `i` (the Python loop `for i, docs in enumerate(all_results)`). -/
def rrfScoreFrom (weights : List ℚ) (key : String) :
    List (List Document) → Nat → ℚ
  | [], _ => 0
  | docs :: rest, i =>
    listScore docs (weightAt weights i) key + rrfScoreFrom weights key rest (i + 1)

/-- Value of `rrf_score[key]` after the scoring loop. -/
def rrfScore (allResults : List (List Document)) (weights : List ℚ)
    (key : String) : ℚ :=
  rrfScoreFrom weights key allResults 0

/-- First occurrence of each content across `l`, skipping contents already
in `seen` (the `unique_docs` dict built in insertion order). -/
def firstOccurrences : List Document → List String → List Document
  | [], _ => []
  | d :: ds, seen =>
    if d.page_content ∈ seen then firstOccurrences ds seen
    else d :: firstOccurrences ds (d.page_content :: seen)

/-- Embeds `unique_docs.values()`: first-seen document per content, in order of
first appearance across the concatenated input lists. -/
def uniqueDocs (allResults : List (List Document)) : List Document :=
  firstOccurrences allResults.flatten []

/-- The descending-by-score order used by `sorted(..., reverse=True)`. -/
def fuseRel (s : String → ℚ) : Document → Document → Prop :=
  fun a b => s b.page_content ≤ s a.page_content

instance (s : String → ℚ) : DecidableRel (fuseRel s) :=
  fun _ _ => inferInstanceAs (Decidable (_ ≤ _))

instance (s : String → ℚ) : IsTotal Document (fuseRel s) :=
  ⟨fun _ _ => le_total _ _⟩

instance (s : String → ℚ) : IsTrans Document (fuseRel s) :=
  ⟨fun _ _ _ h1 h2 => le_trans h2 h1⟩

/-- Steps 2–3 of `_get_relevant_documents`: RRF-score, deduplicate by
content (first occurrence wins), stable-sort descending by score.
Python's `sorted` is stable, as is `List.insertionSort`. -/
def fuse (allResults : List (List Document)) (weights : List ℚ) :
    List Document :=
  List.insertionSort (fuseRel (rrfScore allResults weights)) (uniqueDocs allResults)

/-- Fusion presented as a list of (ranked list, weight) pairs, the
`fuse(lists: [(RankedList, weight)])` contract of the spec. -/
def fusePairs (pairs : List (List Document × ℚ)) : List Document :=
  fuse (pairs.map Prod.fst) (pairs.map Prod.snd)

/-- An ensemble of fallible retrieval backends with per-backend weights. -/
structure EnsembleRetriever where
  retrievers : List (String → Except String (List Document))
  weights : List ℚ

/-- Step 1 of `_get_relevant_documents`: each backend is queried inside
`try/except`; a raising backend contributes `[]` to `all_results`. -/
def gatherResults (er : EnsembleRetriever) (query : String) :
    List (List Document) :=
  er.retrievers.map (fun ret =>
    match ret query with
    | .ok docs => docs
    | .error _ => [])

/-- Embeds `EnsembleRetriever._get_relevant_documents`: gather, then fuse. -/
def getRelevantDocuments (er : EnsembleRetriever) (query : String) :
    List Document :=
  fuse (gatherResults er query) er.weights

/-! ### Conversational turn orchestration
(`server/models/rag_chat.py` and `server/models/rag_chat_dual.py`) -/

/-- One history-store message. -/
structure Message where
  role : String
  content : String
deriving DecidableEq

/-- Observable backend calls made during a turn, in program order. -/
inductive Event where
  | rewriteCall (history : List Message) (input : String)
  | retrieveCall (backend : String) (query : String)
  | generateCall (context : String) (input : String)
  | histAppend (sessionId : String) (msg : Message)
deriving DecidableEq

/-- The Neo4j chat-message store, modelled as an append-only log of
(session id, message) pairs; listing filters by session id in append
order. -/
def listMessages (store : List (String × Message)) (sessionId : String) :
    List Message :=
  (store.filter (fun e => e.1 == sessionId)).map Prod.snd

/-- The abstract backends a turn runs against: the current history-store
state, the rewrite LLM chain, the (already ensemble-fused) retrievers, the
QA generation chain, and the (fallible) history append operation. -/
structure ChatEnv where
  store : List (String × Message)
  rewrite : List Message → String → String
  retrieve : String → List Document
  retrievePublic : String → List Document
  retrieveSecure : String → List Document
  generate : String → String → List Message → String
  append : String → Message → Except String Unit

/-- Result of one turn: the value returned (or the propagated error), the
history store afterwards, and the trace of backend calls. -/
structure TurnOutcome where
  result : Except String (String × List String)
  store : List (String × Message)
  events : List Event

/-- The formatted context line for one chunk: source, page, content. -/
def formatDoc (d : Document) : String :=
  "Source: " ++ metaGet d.metadata "source" "Unknown" ++ " | Page: " ++
    metaGet d.metadata "page" "N/A" ++ "\nContent: " ++ d.page_content

/-- The context string handed to the QA prompt. -/
def formatDocs (docs : List Document) : String :=
  String.intercalate "\n\n" (docs.map formatDoc)

/-- The source citation line for one chunk, built from the metadata keys
source and page; a missing key prints as None. -/
def sourceLine (d : Document) : String :=
  "- " ++ metaGet d.metadata "source" "None" ++ " (Page: " ++
    metaGet d.metadata "page" "None" ++ ")"

/-- The rewrite step shared by both chat variants: with empty history the
raw input is the standalone query and no rewrite-chain call is made;
otherwise one rewrite-chain call produces it. -/
def ragStandalone (rewrite : List Message → String → String)
    (hist : List Message) (input : String) : String × List Event :=
  if hist.isEmpty then (input, [])
  else (rewrite hist input, [Event.rewriteCall hist input])

/-- The persist phase shared by both chat variants: append the user
message, then the assistant message; the first failure propagates and
stops (mirroring `history.add_user_message` / `history.add_ai_message`
inside the `try` block). Returns (outcome, new store, append calls). -/
def persistPair (append : String → Message → Except String Unit)
    (store : List (String × Message)) (sid : String)
    (userMsg aiMsg : Message) :
    Except String Unit × List (String × Message) × List Event :=
  match append sid userMsg with
  | .error e => (.error e, store, [Event.histAppend sid userMsg])
  | .ok _ =>
    let store1 := store ++ [(sid, userMsg)]
    match append sid aiMsg with
    | .error e =>
      (.error e, store1,
        [Event.histAppend sid userMsg, Event.histAppend sid aiMsg])
    | .ok _ =>
      (.ok (), store1 ++ [(sid, aiMsg)],
        [Event.histAppend sid userMsg, Event.histAppend sid aiMsg])

/-- Embeds `rag_chat.rag_chat`: history read, optional rewrite, retrieval (once
for sources/logging and once inside the QA chain), generation, then the
two history appends; an append failure propagates (`except: ... raise`),
so the produced answer is not returned in that case. -/
def ragChat (env : ChatEnv) (sessionId input : String) : TurnOutcome :=
  let hist := listMessages env.store sessionId
  let sq := ragStandalone env.rewrite hist input
  let standalone := sq.1
  let docs := env.retrieve standalone
  let context := formatDocs (env.retrieve standalone)
  let answer := env.generate context input hist
  let evs := sq.2 ++ [Event.retrieveCall "public" standalone,
                      Event.retrieveCall "public" standalone,
                      Event.generateCall context input]
  let pr := persistPair env.append env.store sessionId
    ⟨"user", input⟩ ⟨"assistant", answer⟩
  ⟨match pr.1 with
   | .error e => .error e
   | .ok _ => .ok (answer, (docs.map sourceLine).dedup),
   pr.2.1, evs ++ pr.2.2⟩

/-- Embeds `rag_chat_dual._get_combined_context`: retrieve from both partitions
and concatenate the formatted chunks (public first, then secure). -/
def getCombinedContext (env : ChatEnv) (query : String) : String :=
  formatDocs (env.retrievePublic query ++ env.retrieveSecure query)

/-- Embeds `rag_chat_dual.rag_chat_dual`: same shape as `ragChat`, but history
lives under the `"dual_" ++ sessionId` key, both partitions are queried
(explicitly for sources, and again inside the QA chain's context lambda),
and `all_docs = public_docs + secure_docs` feeds sources. -/
def ragChatDual (env : ChatEnv) (sessionId input : String) : TurnOutcome :=
  let dualId := "dual_" ++ sessionId
  let hist := listMessages env.store dualId
  let sq := ragStandalone env.rewrite hist input
  let standalone := sq.1
  let publicDocs := env.retrievePublic standalone
  let secureDocs := env.retrieveSecure standalone
  let allDocs := publicDocs ++ secureDocs
  let context := getCombinedContext env standalone
  let answer := env.generate context input hist
  let evs := sq.2 ++ [Event.retrieveCall "public" standalone,
                      Event.retrieveCall "secure" standalone,
                      Event.retrieveCall "public" standalone,
                      Event.retrieveCall "secure" standalone,
                      Event.generateCall context input]
  let pr := persistPair env.append env.store dualId
    ⟨"user", input⟩ ⟨"assistant", answer⟩
  ⟨match pr.1 with
   | .error e => .error e
   | .ok _ => .ok (answer, (allDocs.map sourceLine).dedup),
   pr.2.1, evs ++ pr.2.2⟩

/-! ### Routes: authorization and conversation endpoints
(`server/routes/main.py`) -/

/-- The `UserType` enum from `routes/schema.py`. -/
inductive UserType where
  | admin
  | user
  | ruser
deriving DecidableEq

/-- The `ConversationMode` enum from `routes/schema.py`. -/
inductive ConversationMode where
  | public
  | dual
deriving DecidableEq

/-- The fields of the `users` table a request needs. -/
structure User where
  user_id : Nat
  type : UserType
deriving DecidableEq

/-- The fields of the `chat_conversations` table a request needs. -/
structure ChatConversation where
  conversation_id : Nat
  user_id : Nat
  mode : ConversationMode
deriving DecidableEq

/-- Embeds `_allowed_conversation_modes_for`: ruser → {public}; user/admin →
{dual}. -/
def allowedConversationModesFor (t : UserType) : List ConversationMode :=
  match t with
  | .ruser => [ConversationMode.public]
  | _ => [ConversationMode.dual]

/-- Embeds `_neo_session_key`: the string u(user id)_c(conversation id). -/
def neoSessionKey (u : User) (conversationId : Nat) : String :=
  "u" ++ toString u.user_id ++ "_c" ++ toString conversationId

/-- Embeds `_get_conversation_or_404`: lookup, ownership check, then the
fail-closed mode check against the allowed modes of the caller. -/
def getConversationOr404 (rows : List ChatConversation)
    (conversationId : Nat) (u : User) : Except String ChatConversation :=
  match rows.find? (fun r => r.conversation_id == conversationId) with
  | none => .error "Conversation not found"
  | some row =>
    if row.user_id ≠ u.user_id then .error "Not authorized"
    else if row.mode ∉ allowedConversationModesFor u.type then
      .error "Not authorized for this mode"
    else .ok row

/-- Result of `conversation_send`: response (or HTTP error), store state
afterwards, and all backend calls made. -/
structure SendOutcome where
  result : Except String (Nat × String × List String)
  store : List (String × Message)
  events : List Event

/-- Embeds `conversation_send`: authorize via `_get_conversation_or_404`, then
dispatch to `rag_chat` (public mode) or `rag_chat_dual` (dual mode) under
the per-user per-conversation session key. -/
def conversationSend (rows : List ChatConversation) (env : ChatEnv)
    (u : User) (conversationId : Nat) (input : String) : SendOutcome :=
  match getConversationOr404 rows conversationId u with
  | .error e => ⟨.error e, env.store, []⟩
  | .ok conv =>
    let key := neoSessionKey u conv.conversation_id
    let turn :=
      match conv.mode with
      | ConversationMode.public => ragChat env key input
      | ConversationMode.dual => ragChatDual env key input
    match turn.result with
    | .error e => ⟨.error e, turn.store, turn.events⟩
    | .ok pair => ⟨.ok (conv.conversation_id, pair.1, pair.2), turn.store, turn.events⟩

/-- Embeds `conversation_history`: authorize, then list the Neo4j history under
the mode-dependent session id (`dual_`-prefixed for dual conversations). -/
def conversationHistory (rows : List ChatConversation)
    (store : List (String × Message)) (u : User) (conversationId : Nat) :
    Except String (List Message) :=
  match getConversationOr404 rows conversationId u with
  | .error e => .error e
  | .ok conv =>
    let key := neoSessionKey u conv.conversation_id
    let neoId :=
      if conv.mode = ConversationMode.dual then "dual_" ++ key else key
    .ok (listMessages store neoId)

/-! ### Concrete example data (used to instantiate the theorems) -/

/-- Worked-example chunk `doc1`. -/
def doc1 : Document := ⟨"doc1", []⟩

/-- Worked-example chunk `doc2`. -/
def doc2 : Document := ⟨"doc2", []⟩

/-- Worked-example chunk `doc3`. -/
def doc3 : Document := ⟨"doc3", []⟩

/-- Example chunk with content `"A"`. -/
def docA : Document := ⟨"A", []⟩

/-- Example chunk with content `"B"`. -/
def docB : Document := ⟨"B", []⟩

/-- Example chunk with content `"x"`. -/
def docX : Document := ⟨"x", []⟩

/-- Example chunk with content `"y"`. -/
def docY : Document := ⟨"y", []⟩

/-- A benign environment: empty history, trivial backends, appends
succeed. -/
def envW : ChatEnv where
  store := []
  rewrite := fun _ i => i
  retrieve := fun _ => []
  retrievePublic := fun _ => []
  retrieveSecure := fun _ => []
  generate := fun _ _ _ => "answer"
  append := fun _ _ => .ok ()

/-- An environment whose history-store appends always fail. -/
def envDown : ChatEnv where
  store := []
  rewrite := fun _ i => i
  retrieve := fun _ => []
  retrievePublic := fun _ => []
  retrieveSecure := fun _ => []
  generate := fun _ _ _ => "answer"
  append := fun _ _ => .error "db down"

/-- An environment whose public partition retrieves `[docA, docB]` and
whose secure partition retrieves `[docB]`. -/
def envAB : ChatEnv where
  store := []
  rewrite := fun _ i => i
  retrieve := fun _ => []
  retrievePublic := fun _ => [docA, docB]
  retrieveSecure := fun _ => [docB]
  generate := fun _ _ _ => "answer"
  append := fun _ _ => .ok ()

/-- A conversation table holding one dual-mode conversation (id 1) owned
by user 7. -/
def rowsDual : List ChatConversation := [⟨1, 7, ConversationMode.dual⟩]

/-- A conversation table holding one public-mode conversation (id 1) owned
by user 7. -/
def rowsPublic : List ChatConversation := [⟨1, 7, ConversationMode.public⟩]

/-- User 7 with role `user`. -/
def userU : User := ⟨7, UserType.user⟩

/-- User 7 with role `ruser`. -/
def userR : User := ⟨7, UserType.ruser⟩

/-! ### Helper lemmas about the persist phase and the history store -/

theorem persistPair_events (ap : String → Message → Except String Unit)
    (store : List (String × Message)) (sid : String) (um am : Message) :
    ∀ ev ∈ (persistPair ap store sid um am).2.2, ∃ m, ev = Event.histAppend sid m := by
  intro ev hev
  unfold persistPair at hev
  split at hev
  · simp only [List.mem_singleton] at hev
    exact ⟨um, hev⟩
  · split at hev
    · simp only [List.mem_cons, List.mem_singleton, List.not_mem_nil, or_false] at hev
      rcases hev with h | h
      exacts [⟨um, h⟩, ⟨am, h⟩]
    · simp only [List.mem_cons, List.mem_singleton, List.not_mem_nil, or_false] at hev
      rcases hev with h | h
      exacts [⟨um, h⟩, ⟨am, h⟩]

theorem persistPair_store (ap : String → Message → Except String Unit)
    (store : List (String × Message)) (sid : String) (um am : Message) :
    ∃ tail, (persistPair ap store sid um am).2.1 = store ++ tail ∧
      ∀ q ∈ tail, q.1 = sid := by
  unfold persistPair
  split
  · exact ⟨[], by simp⟩
  · split
    · exact ⟨[(sid, um)], by simp⟩
    · exact ⟨[(sid, um), (sid, am)], by simp⟩

theorem persistPair_error_user (ap : String → Message → Except String Unit)
    (store : List (String × Message)) (sid : String) (um am : Message)
    (e : String) (h : ap sid um = .error e) :
    (persistPair ap store sid um am).1 = .error e := by
  unfold persistPair
  rw [h]

theorem persistPair_error_ai (ap : String → Message → Except String Unit)
    (store : List (String × Message)) (sid : String) (um am : Message)
    (e : String) (h1 : ap sid um = .ok ()) (h2 : ap sid am = .error e) :
    (persistPair ap store sid um am).1 = .error e := by
  unfold persistPair
  rw [h1, h2]

theorem listMessages_append (store tail : List (String × Message)) (k : String) :
    listMessages (store ++ tail) k = listMessages store k ++ listMessages tail k := by
  simp [listMessages, List.filter_append]

theorem listMessages_of_ne (tail : List (String × Message)) (k : String)
    (h : ∀ q ∈ tail, q.1 ≠ k) : listMessages tail k = [] := by
  simp only [listMessages, List.map_eq_nil_iff]
  rw [List.filter_eq_nil_iff]
  intro q hq
  simpa using h q hq

/-- The store after a `ragChat` turn is the old store plus entries keyed by
the given session id only. -/
theorem ragChat_store_shape (env : ChatEnv) (sessionId input : String) :
    ∃ tail, (ragChat env sessionId input).store = env.store ++ tail ∧
      ∀ q ∈ tail, q.1 = sessionId := by
  unfold ragChat
  exact persistPair_store _ _ _ _ _

/-- The store after a `ragChatDual` turn is the old store plus entries
keyed by the `dual_`-prefixed session id only. -/
theorem ragChatDual_store_shape (env : ChatEnv) (sessionId input : String) :
    ∃ tail, (ragChatDual env sessionId input).store = env.store ++ tail ∧
      ∀ q ∈ tail, q.1 = "dual_" ++ sessionId := by
  unfold ragChatDual
  exact persistPair_store _ _ _ _ _

/-- The prefixed key `"dual_" ++ s` never collides with `s` itself. -/
theorem dual_key_ne (s : String) : "dual_" ++ s ≠ s := by
  intro h
  have hlen := congrArg String.length h
  rw [String.length_append] at hlen
  have h5 : ("dual_" : String).length = 5 := rfl
  omega

/-- A successful conversation lookup returns the row with the requested
id, owned by the caller, whose mode the caller is allowed to use. -/
theorem getConversationOr404_ok (rows : List ChatConversation) (cid : Nat)
    (u : User) (conv : ChatConversation)
    (h : getConversationOr404 rows cid u = .ok conv) :
    conv.conversation_id = cid ∧ conv.user_id = u.user_id ∧
      conv.mode ∈ allowedConversationModesFor u.type := by
  unfold getConversationOr404 at h
  split at h
  · exact absurd h (by simp)
  case _ row hfind =>
    have hp := List.find?_some hfind
    split at h
    · exact absurd h (by simp)
    case _ hown =>
      split at h
      · exact absurd h (by simp)
      case _ hmode =>
        simp only [Except.ok.injEq] at h
        subst h
        refine ⟨by simpa using hp, by omega, by
          simpa using hmode⟩

/-- A conversation whose mode is outside the allowed set of the caller is
rejected by `_get_conversation_or_404`, whatever the ownership check
says. -/
theorem getConversationOr404_reject (rows : List ChatConversation) (cid : Nat)
    (u : User) (conv : ChatConversation)
    (hfind : rows.find? (fun r => r.conversation_id == cid) = some conv)
    (hmode : conv.mode ∉ allowedConversationModesFor u.type) :
    ∃ e, getConversationOr404 rows cid u = .error e := by
  unfold getConversationOr404
  rw [hfind]
  dsimp only
  by_cases hown : conv.user_id ≠ u.user_id
  · exact ⟨"Not authorized", by rw [if_pos hown]⟩
  · refine ⟨"Not authorized for this mode", ?_⟩
    rw [if_neg hown, if_pos hmode]

/-- C5: a request whose conversation mode lies outside the allowed set
of the caller — in particular a `ruser` caller on a `dual` conversation, and
symmetrically a `user`/`admin` caller on a mode outside their allowed set
`{dual}` — is rejected by `conversation_send` before any retrieval: no
backend call at all is made (the event trace is empty), no response is
produced, and the history store is untouched. -/
theorem C5_unauthorized_mode_rejected_before_retrieval
    (rows : List ChatConversation) (env : ChatEnv) (u : User) (cid : Nat)
    (input : String) (conv : ChatConversation)
    (hfind : rows.find? (fun r => r.conversation_id == cid) = some conv)
    (hmode : conv.mode ∉ allowedConversationModesFor u.type) :
    (conversationSend rows env u cid input).events = [] ∧
    (∀ out, (conversationSend rows env u cid input).result ≠ .ok out) ∧
    (conversationSend rows env u cid input).store = env.store := by
  obtain ⟨e, he⟩ := getConversationOr404_reject rows cid u conv hfind hmode
  unfold conversationSend
  rw [he]
  dsimp only
  exact ⟨rfl, by simp, rfl⟩

/-- C5 witness: the concrete `ruser` caller requesting its own dual-mode
conversation is rejected with an empty backend-call trace. -/
theorem C5_witness :
    (conversationSend rowsDual envW userR 1 "q").events = [] ∧
    (∀ out, (conversationSend rowsDual envW userR 1 "q").result ≠ .ok out) ∧
    (conversationSend rowsDual envW userR 1 "q").store = envW.store :=
  C5_unauthorized_mode_rejected_before_retrieval rowsDual envW userR 1 "q"
    ⟨1, 7, ConversationMode.dual⟩ rfl (by decide)

/-- C6: the history-store session key written by a public-mode turn
(`u{uid}_c{cid}`) is distinct from the key written by a dual-mode turn
(`dual_u{uid}_c{cid}`) for the same (user, conversation) pair, so a
public-mode turn leaves the dual-mode listing unchanged and vice versa —
both directly on the store and through `conversation_history`. -/
theorem C6_session_key_isolation (rows : List ChatConversation)
    (env : ChatEnv) (u : User) (cid : Nat) (input : String) :
    "dual_" ++ neoSessionKey u cid ≠ neoSessionKey u cid ∧
    listMessages (ragChat env (neoSessionKey u cid) input).store
        ("dual_" ++ neoSessionKey u cid) =
      listMessages env.store ("dual_" ++ neoSessionKey u cid) ∧
    listMessages (ragChatDual env (neoSessionKey u cid) input).store
        (neoSessionKey u cid) =
      listMessages env.store (neoSessionKey u cid) ∧
    (∀ conv, getConversationOr404 rows cid u = .ok conv →
      conv.mode = ConversationMode.dual →
      conversationHistory rows (ragChat env (neoSessionKey u cid) input).store u cid =
        conversationHistory rows env.store u cid) ∧
    (∀ conv, getConversationOr404 rows cid u = .ok conv →
      conv.mode = ConversationMode.public →
      conversationHistory rows (ragChatDual env (neoSessionKey u cid) input).store u cid =
        conversationHistory rows env.store u cid) := by
  have hne := dual_key_ne (neoSessionKey u cid)
  have hpub : listMessages (ragChat env (neoSessionKey u cid) input).store
      ("dual_" ++ neoSessionKey u cid) =
      listMessages env.store ("dual_" ++ neoSessionKey u cid) := by
    obtain ⟨tail, hst, hkeys⟩ := ragChat_store_shape env (neoSessionKey u cid) input
    have hz : listMessages tail ("dual_" ++ neoSessionKey u cid) = [] := by
      apply listMessages_of_ne
      intro q hq
      rw [hkeys q hq]
      exact fun hc => hne hc.symm
    rw [hst, listMessages_append, hz, List.append_nil]
  have hdual : listMessages (ragChatDual env (neoSessionKey u cid) input).store
      (neoSessionKey u cid) =
      listMessages env.store (neoSessionKey u cid) := by
    obtain ⟨tail, hst, hkeys⟩ := ragChatDual_store_shape env (neoSessionKey u cid) input
    have hz : listMessages tail (neoSessionKey u cid) = [] := by
      apply listMessages_of_ne
      intro q hq
      rw [hkeys q hq]
      exact hne
    rw [hst, listMessages_append, hz, List.append_nil]
  refine ⟨hne, hpub, hdual, ?_, ?_⟩
  · intro conv hok hmode
    obtain ⟨hcid, -, -⟩ := getConversationOr404_ok rows cid u conv hok
    unfold conversationHistory
    rw [hok]
    dsimp only
    rw [hcid, hmode]
    simp only [if_pos rfl]
    exact congrArg Except.ok hpub
  · intro conv hok hmode
    obtain ⟨hcid, -, -⟩ := getConversationOr404_ok rows cid u conv hok
    unfold conversationHistory
    rw [hok]
    dsimp only
    rw [hcid, hmode]
    rw [if_neg (by simp)]
    exact congrArg Except.ok hdual

/-- C6 witness: with the concrete dual conversation table, a public-mode
turn under the same (user, conversation) key leaves the dual-mode
`conversation_history` listing unchanged, and the two keys differ. -/
theorem C6_witness :
    conversationHistory rowsDual (ragChat envW (neoSessionKey userU 1) "q").store userU 1 =
      conversationHistory rowsDual envW.store userU 1 ∧
    "dual_" ++ neoSessionKey userU 1 ≠ neoSessionKey userU 1 :=
  ⟨(C6_session_key_isolation rowsDual envW userU 1 "q").2.2.2.1
      ⟨1, 7, ConversationMode.dual⟩ rfl rfl,
   (C6_session_key_isolation rowsDual envW userU 1 "q").1⟩

/-- Every event of a `ragChat` trace is a rewrite event, one of the two
retrievals on the standalone query, the generation call over the formatted
retrieved context, or a history append under the session key. -/
theorem ragChat_events_mem (env : ChatEnv) (sid input : String) (ev : Event)
    (hev : ev ∈ (ragChat env sid input).events) :
    ev ∈ (ragStandalone env.rewrite (listMessages env.store sid) input).2 ∨
    ev = Event.retrieveCall "public"
        (ragStandalone env.rewrite (listMessages env.store sid) input).1 ∨
    ev = Event.generateCall
        (formatDocs (env.retrieve
          (ragStandalone env.rewrite (listMessages env.store sid) input).1))
        input ∨
    ∃ m, ev = Event.histAppend sid m := by
  unfold ragChat at hev
  dsimp only at hev
  rcases List.mem_append.mp hev with h | h
  · rcases List.mem_append.mp h with h1 | h1
    · exact Or.inl h1
    · simp only [List.mem_cons, List.not_mem_nil, or_false] at h1
      rcases h1 with h1 | h1 | h1
      · exact Or.inr (Or.inl h1)
      · exact Or.inr (Or.inl h1)
      · exact Or.inr (Or.inr (Or.inl h1))
  · exact Or.inr (Or.inr (Or.inr (persistPair_events _ _ _ _ _ ev h)))

/-- Every event of a `ragChatDual` trace is a rewrite event, a retrieval
of one of the two partitions on the standalone query, the generation call
over the combined (concatenated) context, or a history append under the
`dual_`-prefixed session key. -/
theorem ragChatDual_events_mem (env : ChatEnv) (sid input : String) (ev : Event)
    (hev : ev ∈ (ragChatDual env sid input).events) :
    ev ∈ (ragStandalone env.rewrite (listMessages env.store ("dual_" ++ sid)) input).2 ∨
    ev = Event.retrieveCall "public"
        (ragStandalone env.rewrite (listMessages env.store ("dual_" ++ sid)) input).1 ∨
    ev = Event.retrieveCall "secure"
        (ragStandalone env.rewrite (listMessages env.store ("dual_" ++ sid)) input).1 ∨
    ev = Event.generateCall
        (getCombinedContext env
          (ragStandalone env.rewrite (listMessages env.store ("dual_" ++ sid)) input).1)
        input ∨
    ∃ m, ev = Event.histAppend ("dual_" ++ sid) m := by
  unfold ragChatDual at hev
  dsimp only at hev
  rcases List.mem_append.mp hev with h | h
  · rcases List.mem_append.mp h with h1 | h1
    · exact Or.inl h1
    · simp only [List.mem_cons, List.not_mem_nil, or_false] at h1
      rcases h1 with h1 | h1 | h1 | h1 | h1
      · exact Or.inr (Or.inl h1)
      · exact Or.inr (Or.inr (Or.inl h1))
      · exact Or.inr (Or.inl h1)
      · exact Or.inr (Or.inr (Or.inl h1))
      · exact Or.inr (Or.inr (Or.inr (Or.inl h1)))
  · exact Or.inr (Or.inr (Or.inr (Or.inr (persistPair_events _ _ _ _ _ ev h))))

/-- C9: in both chat variants, when the session history is empty the
standalone query is the raw user input (every retrieval event carries it
unchanged) and the rewrite chain is never called; a rewrite-chain call in
the trace implies the history was non-empty. -/
theorem C9_empty_history_skips_rewrite (env : ChatEnv)
    (sessionId input : String) :
    (listMessages env.store sessionId = [] →
      (∀ h i, Event.rewriteCall h i ∉ (ragChat env sessionId input).events) ∧
      (∀ b q, Event.retrieveCall b q ∈ (ragChat env sessionId input).events →
        q = input)) ∧
    (∀ h i, Event.rewriteCall h i ∈ (ragChat env sessionId input).events →
      listMessages env.store sessionId ≠ []) ∧
    (listMessages env.store ("dual_" ++ sessionId) = [] →
      (∀ h i, Event.rewriteCall h i ∉ (ragChatDual env sessionId input).events) ∧
      (∀ b q, Event.retrieveCall b q ∈ (ragChatDual env sessionId input).events →
        q = input)) ∧
    (∀ h i, Event.rewriteCall h i ∈ (ragChatDual env sessionId input).events →
      listMessages env.store ("dual_" ++ sessionId) ≠ []) := by
  refine ⟨?_, ?_, ?_, ?_⟩
  · intro hemp
    constructor
    · intro h i hmem
      rcases ragChat_events_mem env sessionId input _ hmem with h1 | h1 | h1 | ⟨m, h1⟩ <;>
        simp [ragStandalone, hemp] at h1
    · intro b q hmem
      rcases ragChat_events_mem env sessionId input _ hmem with h1 | h1 | h1 | ⟨m, h1⟩ <;>
        simp [ragStandalone, hemp] at h1
      exact h1.2
  · intro h i hmem hemp
    rcases ragChat_events_mem env sessionId input _ hmem with h1 | h1 | h1 | ⟨m, h1⟩ <;>
      simp [ragStandalone, hemp] at h1
  · intro hemp
    constructor
    · intro h i hmem
      rcases ragChatDual_events_mem env sessionId input _ hmem with
        h1 | h1 | h1 | h1 | ⟨m, h1⟩ <;> simp [ragStandalone, hemp] at h1
    · intro b q hmem
      rcases ragChatDual_events_mem env sessionId input _ hmem with
        h1 | h1 | h1 | h1 | ⟨m, h1⟩ <;> simp [ragStandalone, hemp] at h1
      · exact h1.2
      · exact h1.2
  · intro h i hmem hemp
    rcases ragChatDual_events_mem env sessionId input _ hmem with
      h1 | h1 | h1 | h1 | ⟨m, h1⟩ <;> simp [ragStandalone, hemp] at h1

/-- C9 witness: with an empty store, the public turn makes no
rewrite-chain call and its retrievals carry the raw input. -/
theorem C9_witness :
    Event.rewriteCall [] "q" ∉ (ragChat envW "s" "q").events ∧
    ("q" : String) = "q" :=
  ⟨((C9_empty_history_skips_rewrite envW "s" "q").1 rfl).1 [] "q",
   ((C9_empty_history_skips_rewrite envW "s" "q").1 rfl).2 "public" "q"
     (by decide)⟩

/-- C2 counterexample: with generation succeeding and every history append
failing, both turn functions raise (propagate the append error) instead of
returning the already-produced `{answer, sources}`: the result is the
error, even though the generation call is in the trace. -/
theorem C2_counterexample :
    (ragChat envDown "s" "q").result = .error "db down" ∧
    (ragChatDual envDown "s" "q").result = .error "db down" ∧
    Event.generateCall "" "q" ∈ (ragChat envDown "s" "q").events ∧
    Event.generateCall "" "q" ∈ (ragChatDual envDown "s" "q").events :=
  ⟨rfl, rfl, by decide, by decide⟩

/-- C2 (amended): if the history-store append of the user message (or of
the assistant message after a successful user append) fails, the turn
fails with that error — the produced answer is not returned to the caller
(the `except` block re-raises). -/
theorem C2_amended_persist_failure_fails_turn (env : ChatEnv)
    (sessionId input e : String) :
    (env.append sessionId ⟨"user", input⟩ = .error e →
      (ragChat env sessionId input).result = .error e) ∧
    (env.append ("dual_" ++ sessionId) ⟨"user", input⟩ = .error e →
      (ragChatDual env sessionId input).result = .error e) ∧
    (env.append sessionId ⟨"user", input⟩ = .ok () →
      (∀ c, env.append sessionId ⟨"assistant", c⟩ = .error e) →
      (ragChat env sessionId input).result = .error e) ∧
    (env.append ("dual_" ++ sessionId) ⟨"user", input⟩ = .ok () →
      (∀ c, env.append ("dual_" ++ sessionId) ⟨"assistant", c⟩ = .error e) →
      (ragChatDual env sessionId input).result = .error e) := by
  refine ⟨?_, ?_, ?_, ?_⟩
  · intro h
    unfold ragChat
    dsimp only
    rw [persistPair_error_user _ _ _ _ _ e h]
  · intro h
    unfold ragChatDual
    dsimp only
    rw [persistPair_error_user _ _ _ _ _ e h]
  · intro h1 h2
    unfold ragChat
    dsimp only
    rw [persistPair_error_ai _ _ _ _ _ e h1 (h2 _)]
  · intro h1 h2
    unfold ragChatDual
    dsimp only
    rw [persistPair_error_ai _ _ _ _ _ e h1 (h2 _)]

/-- C2 witness: the amended behavior at the concrete failing store. -/
theorem C2_witness :
    (ragChat envDown "s2" "q2").result = .error "db down" :=
  (C2_amended_persist_failure_fails_turn envDown "s2" "q2" "db down").1 rfl

/-- C1 (amended): in dual mode the context handed to generation is the
formatted concatenation of the public-partition fused list followed by the
secure-partition fused list (`all_docs = public_docs + secure_docs`); no
second `EnsembleFusion` is applied across the two partitions. -/
theorem C1_amended_dual_context_is_concatenation (env : ChatEnv)
    (sessionId input : String) :
    ∀ c i, Event.generateCall c i ∈ (ragChatDual env sessionId input).events →
      c = formatDocs
          (env.retrievePublic
            (ragStandalone env.rewrite
              (listMessages env.store ("dual_" ++ sessionId)) input).1 ++
           env.retrieveSecure
            (ragStandalone env.rewrite
              (listMessages env.store ("dual_" ++ sessionId)) input).1) ∧
      i = input := by
  intro c i hmem
  rcases ragChatDual_events_mem env sessionId input _ hmem with
    h1 | h1 | h1 | h1 | ⟨m, h1⟩
  · unfold ragStandalone at h1
    split at h1 <;> simp at h1
  · exact absurd h1 (by simp)
  · exact absurd h1 (by simp)
  · rw [Event.generateCall.injEq] at h1
    exact ⟨h1.1, h1.2⟩
  · exact absurd h1 (by simp)

/-- C1 witness: on the concrete dual environment the generation context is
the formatted concatenation of the two partition lists. -/
theorem C1_witness :
    getCombinedContext envAB "q" =
      formatDocs (envAB.retrievePublic "q" ++ envAB.retrieveSecure "q") :=
  (C1_amended_dual_context_is_concatenation envAB "s" "q"
    (getCombinedContext envAB "q") "q" (by decide)).1

/-- C1 counterexample: for the dual turn over `envAB` (public partition
fused list `[docA, docB]`, secure partition fused list `[docB]`) the
generation context is built from the concatenation `[docA, docB, docB]`,
while `EnsembleFusion` across the two partition lists with weight 1.0 each
yields `[docB, docA]` (deduplicated and reordered); the two contexts
differ, so the dual-mode result is not the cross-partition fusion. -/
theorem C1_counterexample :
    Event.generateCall (formatDocs [docA, docB, docB]) "q" ∈
      (ragChatDual envAB "s" "q").events ∧
    fusePairs [([docA, docB], 1), ([docB], 1)] = [docB, docA] ∧
    formatDocs [docA, docB, docB] ≠
      formatDocs (fusePairs [([docA, docB], 1), ([docB], 1)]) := by
  have hAB : ("A" : String) ≠ "B" := by decide
  have hfuse : fusePairs [([docA, docB], (1 : ℚ)), ([docB], 1)] = [docB, docA] := by
    norm_num [fusePairs, fuse, uniqueDocs, firstOccurrences, rrfScore,
      rrfScoreFrom, listScore, listScoreFrom, weightAt, fuseRel,
      List.insertionSort, List.orderedInsert, docA, docB, hAB, hAB.symm]
  refine ⟨by decide, hfuse, ?_⟩
  rw [hfuse]
  decide

/-- C4: the worked example of the spec. List A (weight 0.5) = [doc1, doc2,
doc3]; list B (weight 0.5) = [doc3, doc1]; k = 60. Scores are
doc1 = 0.5/60 + 0.5/61, doc3 = 0.5/62 + 0.5/60, doc2 = 0.5/61, and the
fused output order is [doc1, doc3, doc2]. -/
theorem C4_worked_example :
    fusePairs [([doc1, doc2, doc3], 1/2), ([doc3, doc1], 1/2)] =
      [doc1, doc3, doc2] ∧
    rrfScore [[doc1, doc2, doc3], [doc3, doc1]] [1/2, 1/2] "doc1" =
      (1/2) * (1/60) + (1/2) * (1/61) ∧
    rrfScore [[doc1, doc2, doc3], [doc3, doc1]] [1/2, 1/2] "doc3" =
      (1/2) * (1/62) + (1/2) * (1/60) ∧
    rrfScore [[doc1, doc2, doc3], [doc3, doc1]] [1/2, 1/2] "doc2" =
      (1/2) * (1/61) := by
  have h12 : ("doc1" : String) ≠ "doc2" := by decide
  have h13 : ("doc1" : String) ≠ "doc3" := by decide
  have h23 : ("doc2" : String) ≠ "doc3" := by decide
  refine ⟨?_, ?_, ?_, ?_⟩ <;>
    norm_num [fusePairs, fuse, uniqueDocs, firstOccurrences, rrfScore,
      rrfScoreFrom, listScore, listScoreFrom, weightAt, fuseRel,
      List.insertionSort, List.orderedInsert, doc1, doc2, doc3,
      h12, h13, h23, h12.symm, h13.symm, h23.symm]

/-! ### Weight-lookup lemmas -/

theorem weightAt_nil (i : Nat) : weightAt [] i = 1 := by
  simp [weightAt]

theorem weightAt_cons_zero (w : ℚ) (ws : List ℚ) : weightAt (w :: ws) 0 = w := by
  simp [weightAt]

theorem weightAt_cons_succ (w : ℚ) (ws : List ℚ) (i : Nat) :
    weightAt (w :: ws) (i + 1) = weightAt ws i := by
  unfold weightAt
  by_cases h : i < ws.length
  · rw [dif_pos h, dif_pos (by simpa using Nat.succ_lt_succ h)]
    rfl
  · rw [dif_neg h, dif_neg (by simpa using fun hc => h (Nat.lt_of_succ_lt_succ hc))]

theorem weightAt_replicate_one (n i : Nat) :
    weightAt (List.replicate n 1) i = 1 := by
  induction n generalizing i with
  | zero => simp [weightAt]
  | succ n ih =>
    cases i with
    | zero => rw [List.replicate_succ, weightAt_cons_zero]
    | succ i => rw [List.replicate_succ, weightAt_cons_succ]; exact ih i

theorem weightAt_append_replicate (ws : List ℚ) (n i : Nat) :
    weightAt (ws ++ List.replicate n 1) i = weightAt ws i := by
  induction ws generalizing i with
  | nil =>
    rw [List.nil_append, weightAt_nil]
    exact weightAt_replicate_one n i
  | cons w ws ih =>
    cases i with
    | zero => rw [List.cons_append, weightAt_cons_zero, weightAt_cons_zero]
    | succ i =>
      rw [List.cons_append, weightAt_cons_succ, weightAt_cons_succ]
      exact ih i

theorem rrfScoreFrom_congr (w1 w2 : List ℚ) (key : String)
    (h : ∀ i, weightAt w1 i = weightAt w2 i) :
    ∀ (A : List (List Document)) (i : Nat),
      rrfScoreFrom w1 key A i = rrfScoreFrom w2 key A i := by
  intro A
  induction A with
  | nil => intro i; rfl
  | cons docs rest ih =>
    intro i
    rw [rrfScoreFrom, rrfScoreFrom, h i, ih (i + 1)]

theorem rrfScore_pad (A : List (List Document)) (ws : List ℚ) (n : Nat)
    (key : String) :
    rrfScore A (ws ++ List.replicate n 1) key = rrfScore A ws key :=
  rrfScoreFrom_congr _ _ key (weightAt_append_replicate ws n) A 0

/-- C10: when the weights list is shorter than the retriever-results list
the fusion call does not fail: every list index beyond the weights list is
scored with the default weight 1.0, so fusing with the short weights list
equals fusing with the weights list padded by 1.0 entries. -/
theorem C10_missing_weights_default_to_one (allResults : List (List Document))
    (weights : List ℚ) (n : Nat) :
    (∀ i, weights.length ≤ i → weightAt weights i = 1) ∧
    fuse allResults (weights ++ List.replicate n 1) = fuse allResults weights := by
  constructor
  · intro i hi
    unfold weightAt
    rw [dif_neg (by omega)]
  · have hs : rrfScore allResults (weights ++ List.replicate n 1) =
        rrfScore allResults weights :=
      funext (rrfScore_pad allResults weights n)
    unfold fuse
    rw [hs]

/-- C10 witness: one ranked list beyond the single configured weight is
scored with weight 1, and padding the weights with 1.0 changes nothing. -/
theorem C10_witness :
    weightAt [(1 : ℚ)/2] 1 = 1 ∧
    fuse [[docA], [docB]] ([(1 : ℚ)/2] ++ List.replicate 1 1) =
      fuse [[docA], [docB]] [(1 : ℚ)/2] :=
  ⟨(C10_missing_weights_default_to_one [[docA], [docB]] [(1 : ℚ)/2] 1).1 1
      (by decide),
   (C10_missing_weights_default_to_one [[docA], [docB]] [(1 : ℚ)/2] 1).2⟩

/-! ### RRF score lemmas -/

theorem listScoreFrom_of_not_mem (w : ℚ) (k : String) :
    ∀ (docs : List Document) (r : Nat),
      k ∉ docs.map Document.page_content → listScoreFrom w k docs r = 0 := by
  intro docs
  induction docs with
  | nil => intro r _; rfl
  | cons d ds ih =>
    intro r hk
    simp only [List.map_cons, List.mem_cons, not_or] at hk
    rw [listScoreFrom, if_neg (fun h => hk.1 h.symm), ih (r + 1) hk.2, add_zero]

theorem listScoreFrom_of_nodup (w : ℚ) (k : String) :
    ∀ (docs : List Document) (r : Nat),
      (docs.map Document.page_content).Nodup →
      k ∈ docs.map Document.page_content →
      listScoreFrom w k docs r =
        w * (1 / ((r : ℚ) + ((docs.map Document.page_content).indexOf k : ℚ) + 60)) := by
  intro docs
  induction docs with
  | nil => intro r _ hk; simp at hk
  | cons d ds ih =>
    intro r hnd hk
    rw [List.map_cons] at hnd hk
    by_cases hdk : d.page_content = k
    · have hknotin : k ∉ ds.map Document.page_content := by
        rw [← hdk]
        exact (List.nodup_cons.mp hnd).1
      rw [listScoreFrom, if_pos hdk,
        listScoreFrom_of_not_mem w k ds (r + 1) hknotin, add_zero,
        List.map_cons, hdk, List.indexOf_cons_self]
      norm_num
    · have hk' : k ∈ ds.map Document.page_content := by
        rcases List.mem_cons.mp hk with h | h
        · exact absurd h.symm hdk
        · exact h
      rw [listScoreFrom, if_neg hdk, ih (r + 1) (List.nodup_cons.mp hnd).2 hk',
        zero_add, List.map_cons, List.indexOf_cons_ne _ (fun h => hdk h)]
      have harith : ((r + 1 : Nat) : ℚ) + ((ds.map Document.page_content).indexOf k : ℚ) + 60 =
          (r : ℚ) + ((Nat.succ ((ds.map Document.page_content).indexOf k) : Nat) : ℚ) + 60 := by
        push_cast
        ring
      rw [harith]

theorem listScore_of_nodup (w : ℚ) (k : String) (docs : List Document)
    (hnd : (docs.map Document.page_content).Nodup)
    (hk : k ∈ docs.map Document.page_content) :
    listScore docs w k =
      w * (1 / (((docs.map Document.page_content).indexOf k : ℚ) + 60)) := by
  rw [listScore, listScoreFrom_of_nodup w k docs 0 hnd hk]
  norm_num

theorem listScore_of_not_mem (w : ℚ) (k : String) (docs : List Document)
    (hk : k ∉ docs.map Document.page_content) : listScore docs w k = 0 :=
  listScoreFrom_of_not_mem w k docs 0 hk

theorem weightAt_append_cons (W1 : List ℚ) (w : ℚ) (W2 : List ℚ) :
    weightAt (W1 ++ w :: W2) W1.length = w := by
  induction W1 with
  | nil => rw [List.nil_append]; exact weightAt_cons_zero w W2
  | cons a W1 ih => rw [List.cons_append]; exact (weightAt_cons_succ _ _ _).trans ih

theorem rrfScoreFrom_pairs (k : String) :
    ∀ (P : List (List Document × ℚ)) (Wpre : List ℚ),
      rrfScoreFrom (Wpre ++ P.map Prod.snd) k (P.map Prod.fst) Wpre.length =
        (P.map (fun p => listScore p.1 p.2 k)).sum := by
  intro P
  induction P with
  | nil => intro Wpre; simp [rrfScoreFrom]
  | cons p P ih =>
    intro Wpre
    rw [List.map_cons, List.map_cons, rrfScoreFrom, List.map_cons, List.sum_cons]
    congr 1
    · rw [weightAt_append_cons]
    · have hsplit : Wpre ++ p.2 :: P.map Prod.snd =
          (Wpre ++ [p.2]) ++ P.map Prod.snd := by simp
      have hlen : Wpre.length + 1 = (Wpre ++ [p.2]).length := by simp
      rw [hsplit, hlen]
      exact ih (Wpre ++ [p.2])

/-- The RRF score of `fusePairs` input is the sum of the per-pair list
scores — the index-based weight lookup aligns each list with its own
weight. -/
theorem rrfScore_pairs (P : List (List Document × ℚ)) (k : String) :
    rrfScore (P.map Prod.fst) (P.map Prod.snd) k =
      (P.map (fun p => listScore p.1 p.2 k)).sum := by
  have h := rrfScoreFrom_pairs k P []
  simpa [rrfScore] using h

/-- RRF scores are invariant under permuting the (list, weight) pairs. -/
theorem rrfScore_pairs_perm (P P' : List (List Document × ℚ))
    (hp : P.Perm P') (k : String) :
    rrfScore (P.map Prod.fst) (P.map Prod.snd) k =
      rrfScore (P'.map Prod.fst) (P'.map Prod.snd) k := by
  rw [rrfScore_pairs, rrfScore_pairs]
  exact (hp.map _).sum_eq

/-! ### Deduplication (`unique_docs`) lemmas -/

theorem mem_contents_firstOccurrences (k : String) :
    ∀ (l : List Document) (seen : List String),
      k ∈ (firstOccurrences l seen).map Document.page_content ↔
        k ∈ l.map Document.page_content ∧ k ∉ seen := by
  intro l
  induction l with
  | nil => intro seen; simp [firstOccurrences]
  | cons d ds ih =>
    intro seen
    rw [firstOccurrences]
    by_cases hd : d.page_content ∈ seen
    · rw [if_pos hd, ih]
      simp only [List.map_cons, List.mem_cons]
      constructor
      · rintro ⟨hm, hns⟩
        exact ⟨Or.inr hm, hns⟩
      · rintro ⟨hm | hm, hns⟩
        · exact absurd (hm ▸ hd) hns
        · exact ⟨hm, hns⟩
    · rw [if_neg hd]
      simp only [List.map_cons, List.mem_cons, ih]
      constructor
      · rintro (h | ⟨hm, hns⟩)
        · exact ⟨Or.inl h, h ▸ hd⟩
        · exact ⟨Or.inr hm, fun hk => hns (Or.inr hk)⟩
      · rintro ⟨h | hm, hns⟩
        · exact Or.inl h
        · by_cases hdk : k = d.page_content
          · exact Or.inl hdk
          · exact Or.inr ⟨hm, by simp [hdk, hns]⟩

theorem nodup_contents_firstOccurrences :
    ∀ (l : List Document) (seen : List String),
      ((firstOccurrences l seen).map Document.page_content).Nodup := by
  intro l
  induction l with
  | nil => intro seen; simp [firstOccurrences]
  | cons d ds ih =>
    intro seen
    rw [firstOccurrences]
    by_cases hd : d.page_content ∈ seen
    · rw [if_pos hd]; exact ih seen
    · rw [if_neg hd, List.map_cons, List.nodup_cons]
      refine ⟨?_, ih _⟩
      rw [mem_contents_firstOccurrences]
      rintro ⟨-, hns⟩
      exact hns (List.mem_cons_self _ _)

theorem filter_firstOccurrences_of_mem (k : String)
    (l : List Document) (seen : List String) (hk : k ∈ seen) :
    (firstOccurrences l seen).filter (fun d => d.page_content == k) = [] := by
  rw [List.filter_eq_nil_iff]
  intro d hd
  simp only [beq_iff_eq]
  intro hdk
  have hmem : k ∈ (firstOccurrences l seen).map Document.page_content :=
    List.mem_map.mpr ⟨d, hd, hdk⟩
  exact ((mem_contents_firstOccurrences k l seen).mp hmem).2 hk

theorem filter_firstOccurrences (k : String) :
    ∀ (l : List Document) (seen : List String), k ∉ seen →
      (firstOccurrences l seen).filter (fun d => d.page_content == k) =
        (l.find? (fun d => d.page_content == k)).toList := by
  intro l
  induction l with
  | nil => intro seen _; rfl
  | cons d ds ih =>
    intro seen hk
    rw [firstOccurrences]
    by_cases hd : d.page_content ∈ seen
    · rw [if_pos hd]
      have hdk : ¬((fun x : Document => x.page_content == k) d) = true := by
        simp only [beq_iff_eq]
        exact fun h => hk (h ▸ hd)
      rw [@List.find?_cons_of_neg Document (fun x => x.page_content == k) d ds hdk]
      exact ih seen hk
    · rw [if_neg hd]
      by_cases hdk : d.page_content = k
      · rw [List.filter_cons_of_pos (by simpa using hdk),
          @List.find?_cons_of_pos Document (fun x => x.page_content == k) d ds
            (by simpa using hdk),
          filter_firstOccurrences_of_mem k ds _ (by rw [← hdk]; exact List.mem_cons_self _ _)]
        rfl
      · rw [List.filter_cons_of_neg (by simpa using hdk),
          @List.find?_cons_of_neg Document (fun x => x.page_content == k) d ds
            (by simpa using hdk)]
        refine ih _ ?_
        intro hmem
        rcases List.mem_cons.mp hmem with h | h
        · exact hdk h.symm
        · exact hk h

theorem firstOccurrences_eq_self :
    ∀ (l : List Document) (seen : List String),
      (l.map Document.page_content).Nodup →
      (∀ d ∈ l, d.page_content ∉ seen) →
      firstOccurrences l seen = l := by
  intro l
  induction l with
  | nil => intro seen _ _; rfl
  | cons d ds ih =>
    intro seen hnd hs
    rw [List.map_cons, List.nodup_cons] at hnd
    rw [firstOccurrences, if_neg (hs d (List.mem_cons_self d ds))]
    congr 1
    refine ih _ hnd.2 ?_
    intro x hx hmem
    rcases List.mem_cons.mp hmem with h | h
    · exact hnd.1 (h ▸ List.mem_map.mpr ⟨x, hx, rfl⟩)
    · exact hs x (List.mem_cons_of_mem _ hx) h

/-! ### Fusion output structure lemmas -/

theorem fuse_perm_uniqueDocs (A : List (List Document)) (W : List ℚ) :
    (fuse A W).Perm (uniqueDocs A) :=
  List.perm_insertionSort _ _

theorem fuse_sorted (A : List (List Document)) (W : List ℚ) :
    List.Sorted (fuseRel (rrfScore A W)) (fuse A W) :=
  List.sorted_insertionSort _ _

theorem nodup_contents_fuse (A : List (List Document)) (W : List ℚ) :
    ((fuse A W).map Document.page_content).Nodup :=
  ((fuse_perm_uniqueDocs A W).map _).nodup_iff.mpr
    (nodup_contents_firstOccurrences _ _)

theorem mem_contents_fuse (A : List (List Document)) (W : List ℚ) (k : String) :
    k ∈ (fuse A W).map Document.page_content ↔
      k ∈ A.flatten.map Document.page_content := by
  rw [((fuse_perm_uniqueDocs A W).map Document.page_content).mem_iff]
  rw [uniqueDocs, mem_contents_firstOccurrences]
  simp

theorem find?_eq_of_filter_eq_singleton {α : Type} (p : α → Bool) (d : α) :
    ∀ l : List α, l.filter p = [d] → l.find? p = some d := by
  intro l
  induction l with
  | nil => intro h; simp at h
  | cons a as ih =>
    intro h
    by_cases hp : p a
    · rw [List.filter_cons_of_pos hp] at h
      rw [List.find?_cons_of_pos as hp]
      simp only [List.cons.injEq] at h
      exact congrArg some h.1
    · rw [List.filter_cons_of_neg hp] at h
      rw [List.find?_cons_of_neg as hp]
      exact ih h

theorem listScore_nil (w : ℚ) (k : String) : listScore [] w k = 0 := rfl

/-- If the whole RRF score comes from a single duplicate-free list with a
nonnegative weight, fusion returns that list unchanged: its scores are
already descending in rank, and the sort is stable. -/
theorem fuse_of_only_list (A : List (List Document)) (W : List ℚ)
    (docs : List Document) (w : ℚ) (hw : 0 ≤ w)
    (hnd : (docs.map Document.page_content).Nodup)
    (hu : uniqueDocs A = docs)
    (hs : ∀ k, rrfScore A W k = listScore docs w k) :
    fuse A W = docs := by
  have hval : ∀ (i : Nat) (h : i < docs.length),
      listScore docs w (docs[i].page_content) = w * (1 / ((i : ℚ) + 60)) := by
    intro i h
    have hmem : docs[i].page_content ∈ docs.map Document.page_content :=
      List.mem_map.mpr ⟨docs[i], List.getElem_mem h, rfl⟩
    rw [listScore_of_nodup w _ docs hnd hmem]
    have hci : docs[i].page_content =
        (docs.map Document.page_content).get ⟨i, by simpa using h⟩ := by simp
    have hidx : (docs.map Document.page_content).indexOf docs[i].page_content = i := by
      rw [hci]
      exact List.indexOf_getElem hnd i _
    rw [hidx]
  unfold fuse
  rw [hu]
  apply List.Sorted.insertionSort_eq
  rw [List.Sorted, List.pairwise_iff_getElem]
  intro i j hi hj hij
  show rrfScore A W (docs[j].page_content) ≤ rrfScore A W (docs[i].page_content)
  rw [hs, hs, hval i hi, hval j hj]
  apply mul_le_mul_of_nonneg_left _ hw
  apply one_div_le_one_div_of_le
  · positivity
  · have hij' : (i : ℚ) ≤ (j : ℚ) := by exact_mod_cast Nat.le_of_lt hij
    linarith

/-- C8: with two ensemble backends of which one raises (in either
position), `_get_relevant_documents` does not raise: it returns exactly
the ranked list of the surviving backend (assuming that list has no duplicate
contents and a nonnegative weight), which is non-empty whenever the
surviving backend returned results. -/
theorem C8_fusion_degrades_on_backend_error (e q : String)
    (docs : List Document) (w₁ w₂ : ℚ) (hw : 0 ≤ w₂)
    (hnd : (docs.map Document.page_content).Nodup) :
    getRelevantDocuments ⟨[fun _ => .error e, fun _ => .ok docs], [w₁, w₂]⟩ q
      = docs ∧
    getRelevantDocuments ⟨[fun _ => .ok docs, fun _ => .error e], [w₂, w₁]⟩ q
      = docs ∧
    (docs ≠ [] →
      getRelevantDocuments ⟨[fun _ => .error e, fun _ => .ok docs], [w₁, w₂]⟩ q
        ≠ []) := by
  have h2 : weightAt [w₁, w₂] 1 = w₂ := by
    rw [weightAt, dif_pos (by norm_num)]; rfl
  have h0 : weightAt [w₂, w₁] 0 = w₂ := by
    rw [weightAt, dif_pos (by norm_num)]; rfl
  have hfirst : getRelevantDocuments
      ⟨[fun _ => .error e, fun _ => .ok docs], [w₁, w₂]⟩ q = docs := by
    show fuse [[], docs] [w₁, w₂] = docs
    apply fuse_of_only_list _ _ docs w₂ hw hnd
    · show firstOccurrences ([[], docs] : List (List Document)).flatten [] = docs
      rw [show ([[], docs] : List (List Document)).flatten = docs by simp]
      exact firstOccurrences_eq_self docs [] hnd (by simp)
    · intro k
      show rrfScoreFrom [w₁, w₂] k [[], docs] 0 = listScore docs w₂ k
      simp only [rrfScoreFrom, listScore_nil, h2, zero_add, add_zero]
  refine ⟨hfirst, ?_, fun hne => by rw [hfirst]; exact hne⟩
  show fuse [docs, []] [w₂, w₁] = docs
  apply fuse_of_only_list _ _ docs w₂ hw hnd
  · show firstOccurrences ([docs, []] : List (List Document)).flatten [] = docs
    rw [show ([docs, []] : List (List Document)).flatten = docs by simp]
    exact firstOccurrences_eq_self docs [] hnd (by simp)
  · intro k
    show rrfScoreFrom [w₂, w₁] k [docs, []] 0 = listScore docs w₂ k
    simp only [rrfScoreFrom, listScore_nil, h0, zero_add, add_zero]

/-- C8 witness: the concrete two-backend ensemble where the dense backend
raises returns exactly the two chunks of the lexical backend. -/
theorem C8_witness :
    getRelevantDocuments
      ⟨[fun _ => .error "timeout", fun _ => .ok [docA, docB]], [1/2, 1/2]⟩ "q"
      = [docA, docB] :=
  (C8_fusion_degrades_on_backend_error "timeout" "q" [docA, docB] (1/2) (1/2)
    (by norm_num) (by decide)).1

/-- C7: for a content `k` appearing in more than one input list (each
input list free of internal duplicate contents, so `rank_in_list` is
well-defined), the fused output contains exactly one chunk with content
`k`; its accumulated score is the sum over the lists containing `k` of
`weight * 1/(rank + 60)`; and the chunk object kept (hence its metadata)
is the first occurrence in input-list order. -/
theorem C7_dedup_sums_scores_first_metadata
    (P : List (List Document × ℚ)) (k : String)
    (hnd : ∀ p ∈ P, (p.1.map Document.page_content).Nodup)
    (hk2 : 2 ≤ (P.filter
      (fun p => decide (k ∈ p.1.map Document.page_content))).length) :
    ((fusePairs P).map Document.page_content).count k = 1 ∧
    rrfScore (P.map Prod.fst) (P.map Prod.snd) k =
      (P.map (fun p => if k ∈ p.1.map Document.page_content
        then p.2 * (1 / (((p.1.map Document.page_content).indexOf k : ℚ) + 60))
        else 0)).sum ∧
    (fusePairs P).find? (fun d => d.page_content == k) =
      (P.map Prod.fst).flatten.find? (fun d => d.page_content == k) := by
  have hne : P.filter (fun p => decide (k ∈ p.1.map Document.page_content)) ≠ [] := by
    intro h
    rw [h] at hk2
    simp at hk2
  obtain ⟨p, hpfil⟩ := List.exists_mem_of_ne_nil _ hne
  have hpP : p ∈ P := (List.mem_filter.mp hpfil).1
  have hkp : k ∈ p.1.map Document.page_content :=
    of_decide_eq_true (List.mem_filter.mp hpfil).2
  have hkflat : k ∈ (P.map Prod.fst).flatten.map Document.page_content := by
    rcases List.mem_map.mp hkp with ⟨d, hd, hdc⟩
    exact List.mem_map.mpr
      ⟨d, List.mem_flatten.mpr ⟨p.1, List.mem_map.mpr ⟨p, hpP, rfl⟩, hd⟩, hdc⟩
  refine ⟨?_, ?_, ?_⟩
  · apply List.count_eq_one_of_mem
    · exact nodup_contents_fuse _ _
    · show k ∈ (fuse (P.map Prod.fst) (P.map Prod.snd)).map Document.page_content
      rw [mem_contents_fuse]
      exact hkflat
  · rw [rrfScore_pairs]
    apply congrArg List.sum
    apply List.map_congr_left
    intro q hq
    by_cases hkq : k ∈ q.1.map Document.page_content
    · rw [if_pos hkq, listScore_of_nodup _ _ _ (hnd q hq) hkq]
    · rw [if_neg hkq, listScore_of_not_mem _ _ _ hkq]
  · have hsome : ((P.map Prod.fst).flatten.find?
        (fun d => d.page_content == k)).isSome := by
      rw [List.find?_isSome]
      rcases List.mem_map.mp hkflat with ⟨d, hd, hdc⟩
      exact ⟨d, hd, by simp [hdc]⟩
    obtain ⟨d₀, hd₀⟩ := Option.isSome_iff_exists.mp hsome
    have hufilter : (uniqueDocs (P.map Prod.fst)).filter
        (fun d => d.page_content == k) = [d₀] := by
      rw [uniqueDocs, filter_firstOccurrences k _ [] (by simp), hd₀]
      rfl
    have hpf : ((fusePairs P).filter (fun d => d.page_content == k)).Perm [d₀] := by
      rw [← hufilter]
      exact (fuse_perm_uniqueDocs _ _).filter _
    have hff : (fusePairs P).filter (fun d => d.page_content == k) = [d₀] :=
      List.perm_singleton.mp hpf
    rw [find?_eq_of_filter_eq_singleton _ _ _ hff, hd₀]

/-- C7 witness: content `doc1` appears in both concrete lists; its fused
count is 1 and the kept chunk is its first occurrence. -/
theorem C7_witness :
    ((fusePairs [([doc1, doc3], (1:ℚ)/2), ([doc3, doc1], 1/2)]).map
      Document.page_content).count "doc1" = 1 ∧
    (fusePairs [([doc1, doc3], (1:ℚ)/2), ([doc3, doc1], 1/2)]).find?
        (fun d => d.page_content == "doc1") =
      (([([doc1, doc3], (1:ℚ)/2), ([doc3, doc1], 1/2)]).map
        Prod.fst).flatten.find? (fun d => d.page_content == "doc1") :=
  ⟨(C7_dedup_sums_scores_first_metadata
      [([doc1, doc3], (1:ℚ)/2), ([doc3, doc1], 1/2)] "doc1"
      (by decide) (by decide)).1,
   (C7_dedup_sums_scores_first_metadata
      [([doc1, doc3], (1:ℚ)/2), ([doc3, doc1], 1/2)] "doc1"
      (by decide) (by decide)).2.2⟩

/-- Two permutations of the same duplicate-free contents, both weakly
sorted by a score that separates distinct contents, coincide. -/
theorem sorted_nodup_perm_eq (s : String → ℚ) :
    ∀ l₁ l₂ : List String, l₁.Perm l₂ →
      l₁.Pairwise (fun a b => s b ≤ s a) →
      l₂.Pairwise (fun a b => s b ≤ s a) →
      l₁.Nodup →
      (∀ a ∈ l₁, ∀ b ∈ l₁, s a = s b → a = b) →
      l₁ = l₂ := by
  intro l₁
  induction l₁ with
  | nil =>
    intro l₂ hp _ _ _ _
    exact hp.nil_eq
  | cons a t ih =>
    intro l₂ hp h₁ h₂ hnd hinj
    cases l₂ with
    | nil => exact absurd hp.symm.nil_eq (by simp)
    | cons b t₂ =>
      have hbmem : b ∈ a :: t := hp.mem_iff.mpr (List.mem_cons_self b t₂)
      have hamem : a ∈ b :: t₂ := hp.mem_iff.mp (List.mem_cons_self a t)
      have hab : a = b := by
        rcases List.mem_cons.mp hbmem with h | hbt
        · exact h.symm
        rcases List.mem_cons.mp hamem with h | hat
        · exact h
        have hba : s b ≤ s a := (List.pairwise_cons.mp h₁).1 b hbt
        have hab' : s a ≤ s b := (List.pairwise_cons.mp h₂).1 a hat
        exact hinj a (List.mem_cons_self a t) b hbmem (le_antisymm hab' hba)
      subst hab
      have hp' : t.Perm t₂ := hp.cons_inv
      have ht := ih t₂ hp' (List.pairwise_cons.mp h₁).2 (List.pairwise_cons.mp h₂).2
        (List.nodup_cons.mp hnd).2
        (fun x hx y hy hxy =>
          hinj x (List.mem_cons_of_mem _ hx) y (List.mem_cons_of_mem _ hy) hxy)
      rw [ht]

/-- C3 (amended): the RRF scores themselves are invariant under permuting
the (list, weight) pairs, and — provided distinct contents receive
distinct scores — the fused output contents come out in the same order
under every permutation of the input lists. (When two distinct chunks tie,
the output order follows first-appearance order and so does depend on the
order in which the input lists are supplied; see the counterexample.) -/
theorem C3_amended_fuse_perm_invariant (P P' : List (List Document × ℚ))
    (hperm : P.Perm P')
    (hinj : ∀ k₁ ∈ (P.map Prod.fst).flatten.map Document.page_content,
            ∀ k₂ ∈ (P.map Prod.fst).flatten.map Document.page_content,
              rrfScore (P.map Prod.fst) (P.map Prod.snd) k₁ =
                rrfScore (P.map Prod.fst) (P.map Prod.snd) k₂ → k₁ = k₂) :
    (∀ k, rrfScore (P.map Prod.fst) (P.map Prod.snd) k =
      rrfScore (P'.map Prod.fst) (P'.map Prod.snd) k) ∧
    (fusePairs P).map Document.page_content =
      (fusePairs P').map Document.page_content := by
  have hs' : rrfScore (P'.map Prod.fst) (P'.map Prod.snd) =
      rrfScore (P.map Prod.fst) (P.map Prod.snd) :=
    funext (fun k => (rrfScore_pairs_perm P P' hperm k).symm)
  refine ⟨fun k => congrFun hs'.symm k, ?_⟩
  unfold fusePairs
  have hflat : ((P.map Prod.fst).flatten.map Document.page_content).Perm
      ((P'.map Prod.fst).flatten.map Document.page_content) :=
    ((hperm.map Prod.fst).flatten).map _
  have hpermOut : ((fuse (P.map Prod.fst) (P.map Prod.snd)).map
      Document.page_content).Perm
      ((fuse (P'.map Prod.fst) (P'.map Prod.snd)).map Document.page_content) := by
    rw [List.perm_ext_iff_of_nodup (nodup_contents_fuse _ _)
      (nodup_contents_fuse _ _)]
    intro k
    rw [mem_contents_fuse, mem_contents_fuse]
    exact hflat.mem_iff
  have hsorted1 : ((fuse (P.map Prod.fst) (P.map Prod.snd)).map
      Document.page_content).Pairwise
      (fun x y => rrfScore (P.map Prod.fst) (P.map Prod.snd) y ≤
        rrfScore (P.map Prod.fst) (P.map Prod.snd) x) :=
    List.pairwise_map.mpr (fuse_sorted (P.map Prod.fst) (P.map Prod.snd))
  have hsorted2 : ((fuse (P'.map Prod.fst) (P'.map Prod.snd)).map
      Document.page_content).Pairwise
      (fun x y => rrfScore (P.map Prod.fst) (P.map Prod.snd) y ≤
        rrfScore (P.map Prod.fst) (P.map Prod.snd) x) := by
    have h : ((fuse (P'.map Prod.fst) (P'.map Prod.snd)).map
        Document.page_content).Pairwise
        (fun x y => rrfScore (P'.map Prod.fst) (P'.map Prod.snd) y ≤
          rrfScore (P'.map Prod.fst) (P'.map Prod.snd) x) :=
      List.pairwise_map.mpr (fuse_sorted (P'.map Prod.fst) (P'.map Prod.snd))
    rw [hs'] at h
    exact h
  apply sorted_nodup_perm_eq (rrfScore (P.map Prod.fst) (P.map Prod.snd)) _ _
    hpermOut hsorted1 hsorted2 (nodup_contents_fuse _ _)
  intro a ha b hb hab
  rw [mem_contents_fuse] at ha hb
  exact hinj a ha b hb hab

/-- C3 counterexample: two singleton input lists with equal weights tie on
RRF score; supplying them in the opposite order (a permutation of the same
multiset of (list, weight) pairs) swaps the fused output, so `fuse` is not
order-independent as stated when scores tie. -/
theorem C3_counterexample :
    ([([docX], (1 : ℚ)), ([docY], 1)]).Perm [([docY], (1 : ℚ)), ([docX], 1)] ∧
    fusePairs [([docX], (1 : ℚ)), ([docY], 1)] = [docX, docY] ∧
    fusePairs [([docY], (1 : ℚ)), ([docX], 1)] = [docY, docX] ∧
    fusePairs [([docX], (1 : ℚ)), ([docY], 1)] ≠
      fusePairs [([docY], (1 : ℚ)), ([docX], 1)] := by
  have hxy : ("x" : String) ≠ "y" := by decide
  have h1 : fusePairs [([docX], (1 : ℚ)), ([docY], 1)] = [docX, docY] := by
    norm_num [fusePairs, fuse, uniqueDocs, firstOccurrences, rrfScore,
      rrfScoreFrom, listScore, listScoreFrom, weightAt, fuseRel,
      List.insertionSort, List.orderedInsert, docX, docY, hxy, hxy.symm]
  have h2 : fusePairs [([docY], (1 : ℚ)), ([docX], 1)] = [docY, docX] := by
    norm_num [fusePairs, fuse, uniqueDocs, firstOccurrences, rrfScore,
      rrfScoreFrom, listScore, listScoreFrom, weightAt, fuseRel,
      List.insertionSort, List.orderedInsert, docX, docY, hxy, hxy.symm]
  refine ⟨List.Perm.swap _ _ _, h1, h2, ?_⟩
  rw [h1, h2]
  decide

/-- C3 witness: with distinct weights the two contents get distinct
scores, and the fused contents agree under swapping the input lists. -/
theorem C3_witness :
    (fusePairs [([docX], (1 : ℚ)), ([docY], 2)]).map Document.page_content =
      (fusePairs [([docY], (2 : ℚ)), ([docX], 1)]).map Document.page_content :=
  (C3_amended_fuse_perm_invariant [([docX], (1 : ℚ)), ([docY], 2)]
    [([docY], (2 : ℚ)), ([docX], 1)] (List.Perm.swap _ _ _)
    (by
      intro k₁ h₁ k₂ h₂ heq
      have hxy : ("x" : String) ≠ "y" := by decide
      simp only [List.map_cons, List.map_nil, List.flatten, docX, docY,
        List.append_nil, List.nil_append, List.mem_cons, List.not_mem_nil,
        or_false, List.mem_singleton, List.cons_append] at h₁ h₂
      rcases h₁ with h₁ | h₁ <;> rcases h₂ with h₂ | h₂ <;>
        subst h₁ <;> subst h₂
      · rfl
      · exfalso
        norm_num [rrfScore, rrfScoreFrom, listScore, listScoreFrom, weightAt,
          docX, docY, hxy, hxy.symm] at heq
      · exfalso
        norm_num [rrfScore, rrfScoreFrom, listScore, listScoreFrom, weightAt,
          docX, docY, hxy, hxy.symm] at heq
      · rfl)).2

end Aerothon
